import Mathlib

/-!
Verification of the dependency-merge and plugin-synchronization logic of
`spring-init` (src/src/main.rs), via a shallow embedding.

Documents and tokens are modelled as `List Char`; this is faithful to the
Rust code's byte-level string handling because UTF-8 byte-lexicographic
order and substring matching coincide with codepoint-level order and
matching on valid UTF-8 text.
-/

set_option maxRecDepth 100000

/-- Whitespace test used by trimming, matching `str::trim` on ASCII input. -/
def isWsp (c : Char) : Bool :=
  c = ' ' || c = '\t' || c = '\r' || c = '\n'

/-- Model of Rust `str::trim`: drop whitespace from both ends. -/
def trimChars (l : List Char) : List Char :=
  ((l.dropWhile isWsp).reverse.dropWhile isWsp).reverse

/-- Model of Rust `str::split(sep)` for a one-character separator:
`splitSep ':' "a::c" = ["a","","c"]`, `splitSep ':' "" = [""]`. -/
def splitSep (sep : Char) : List Char → List (List Char)
  | [] => [[]]
  | c :: rest =>
    if c = sep then [] :: splitSep sep rest
    else
      match splitSep sep rest with
      | [] => [[c]]
      | h :: t => (c :: h) :: t

/-- Lexicographic (byte/codepoint) order on strings, as used by Rust's
`Vec::sort` on `String` (shorter-first on ties). -/
def listLe : List Char → List Char → Bool
  | [], _ => true
  | _ :: _, [] => false
  | c :: cs, d :: ds => if c = d then listLe cs ds else decide (c < d)

/-- Model of Rust `Vec::dedup`: remove adjacent duplicates, keeping the first. -/
def dedupAdjacent : List (List Char) → List (List Char)
  | [] => []
  | [x] => [x]
  | x :: y :: rest =>
    if x = y then dedupAdjacent (y :: rest)
    else x :: dedupAdjacent (y :: rest)

/-- Model of Rust `Vec::join(",")`. -/
def joinTokens : List (List Char) → List Char
  | [] => []
  | [x] => x
  | x :: y :: rest => x ++ ',' :: joinTokens (y :: rest)

/-- The token list produced by the dependency merge in `init_project`
(src/src/main.rs lines 236-241): split the primary string on commas,
trim each piece, append the `--include` tokens as given, sort, and
remove adjacent duplicates. -/
def mergeTokens (allDeps : List Char) (included : List (List Char)) : List (List Char) :=
  let prdDeps := (splitSep ',' allDeps).map trimChars
  let combined := prdDeps ++ included
  dedupAdjacent (List.insertionSort (fun a b => listLe a b = true) combined)

/-- The dependency-merge step of `init_project` (src/src/main.rs lines
235-243): when no `--include` list is present the primary string is left
untouched; otherwise the merged token list is comma-joined. -/
def init_project_merge (allDeps : List Char) (included : Option (List (List Char))) : List Char :=
  match included with
  | none => allDeps
  | some inc => joinTokens (mergeTokens allDeps inc)

/-! ### Substring search and insertion, modelling `str::contains`,
`str::find` and `String::insert_str`. -/

/-- Model of Rust `str::find(pat)`: index of the first occurrence of `pat`. -/
def listFind? (pat : List Char) : List Char → Option Nat
  | [] => if pat = [] then some 0 else none
  | c :: rest =>
    if pat.isPrefixOf (c :: rest) then some 0
    else (listFind? pat rest).map (· + 1)

/-- Model of Rust `str::contains(pat)`. -/
def containsSub (s pat : List Char) : Bool :=
  (listFind? pat s).isSome

/-- Model of Rust `String::insert_str(i, ins)`. -/
def insertAt (s : List Char) (i : Nat) (ins : List Char) : List Char :=
  s.take i ++ ins ++ s.drop i

/-! ### The plugin synchronizer `sync_plugins` (src/src/main.rs 322-385). -/

/-- Errors surfaced by `sync_plugins`, one per `eyre!` site. -/
inductive SyncError where
  /-- "Invalid plugin format: {plugin}" (an InputError). -/
  | invalidPlugin (p : List Char)
  /-- "Could not find </project> tag in pom.xml" (a DocumentStructureError). -/
  | noProjectTag
  /-- "Could not find </build> tag in pom.xml" (a DocumentStructureError). -/
  | noBuildTag
  /-- "Could not find </plugins> tag in pom.xml" (a DocumentStructureError). -/
  | noPluginsTag
deriving DecidableEq

def buildOpenTag : List Char := "<build>".data

def pluginsOpenTag : List Char := "<plugins>".data

def projectCloseTag : List Char := "</project>".data

def buildCloseTag : List Char := "</build>".data

def pluginsCloseTag : List Char := "</plugins>".data

/-- The empty build section inserted before `</project>`
(src/src/main.rs lines 352-357). -/
def buildSectionText : List Char :=
  "\n    <build>\n        <plugins>\n        </plugins>\n    </build>\n".data

/-- The empty plugins section inserted before `</build>`
(src/src/main.rs lines 361-364). -/
def pluginsSectionText : List Char :=
  "\n        <plugins>\n        </plugins>\n".data

/-- The plugin declaration block built from the coordinate components
(src/src/main.rs lines 368-373). -/
def pluginXmlFor (g a v : List Char) : List Char :=
  "\n            <plugin>\n                <groupId>".data ++ g ++
  "</groupId>\n                <artifactId>".data ++ a ++
  "</artifactId>\n                <version>".data ++ v ++
  "</version>\n            </plugin>".data

/-- Section-ensuring logic of one loop iteration (src/src/main.rs lines
349-365): if no `<build>` marker exists, insert an empty build section
before the first `</project>`; else if no `<plugins>` marker exists,
insert an empty plugins section before the first `</build>`. -/
def ensureSections (pom : List Char) : Except SyncError (List Char) :=
  if !(containsSub pom buildOpenTag) then
    match listFind? projectCloseTag pom with
    | none => .error .noProjectTag
    | some i => .ok (insertAt pom i buildSectionText)
  else if !(containsSub pom pluginsOpenTag) then
    match listFind? buildCloseTag pom with
    | none => .error .noBuildTag
    | some i => .ok (insertAt pom i pluginsSectionText)
  else .ok pom

/-- One iteration of the `for plugin in &config.maven_plugins` loop
(src/src/main.rs lines 328-381).  `pom0` is the document text read once
before the loop (line 325) and consulted by the presence check
(line 330); `st` is the current file content paired with the number of
`fs::write` calls performed so far.  A plugin whose raw coordinate
string occurs in `pom0` is skipped; otherwise it must split on `:` into
exactly three parts (emptiness is not checked), the enclosing sections
are ensured on the freshly read file content, the declaration block is
inserted before the first `</plugins>`, and the file is written. -/
def syncStep (pom0 : List Char) (st : List Char × Nat) (plugin : List Char) :
    Except SyncError (List Char × Nat) :=
  if containsSub pom0 plugin then .ok st
  else
    match splitSep ':' plugin with
    | [g, a, v] =>
      match ensureSections st.1 with
      | .error e => .error e
      | .ok pom1 =>
        match listFind? pluginsCloseTag pom1 with
        | none => .error .noPluginsTag
        | some i => .ok (insertAt pom1 i (pluginXmlFor g a v), st.2 + 1)
    | _ => .error (.invalidPlugin plugin)

/-- The plugin loop: on the first failing step the error propagates and the
file is left in the state reached so far. -/
def syncLoop (pom0 : List Char) : List Char × Nat → List (List Char) →
    (List Char × Nat) × Option SyncError
  | st, [] => (st, none)
  | st, p :: rest =>
    match syncStep pom0 st p with
    | .error e => (st, some e)
    | .ok st' => syncLoop pom0 st' rest

/-- Model of `sync_plugins` (src/src/main.rs lines 322-385): the document
text is read once, then each required plugin is processed in order.  The
result is the final file content, the number of `fs::write` calls, and
the error that aborted the run, if any. -/
def sync_plugins (doc : List Char) (plugins : List (List Char)) :
    (List Char × Nat) × Option SyncError :=
  syncLoop doc (doc, 0) plugins

/-! ### Order theory for `listLe` -/

theorem listLe_refl : ∀ l : List Char, listLe l l = true
  | [] => rfl
  | c :: cs => by simp [listLe, listLe_refl cs]

theorem listLe_total : ∀ a b : List Char, listLe a b = true ∨ listLe b a = true
  | [], _ => Or.inl rfl
  | _ :: _, [] => Or.inr rfl
  | c :: cs, d :: ds => by
    by_cases h : c = d
    · subst h
      simpa [listLe] using listLe_total cs ds
    · rcases lt_trichotomy c d with hlt | heq | hgt
      · exact Or.inl (by simp [listLe, h, hlt])
      · exact absurd heq h
      · exact Or.inr (by simp [listLe, Ne.symm h, hgt])

theorem listLe_trans : ∀ {a b c : List Char},
    listLe a b = true → listLe b c = true → listLe a c = true
  | [], _, _, _, _ => rfl
  | _ :: _, [], _, hab, _ => by simp [listLe] at hab
  | _ :: _, _ :: _, [], _, hbc => by simp [listLe] at hbc
  | x :: xs, y :: ys, z :: zs, hab, hbc => by
    by_cases hxy : x = y <;> by_cases hyz : y = z
    · subst hxy; subst hyz
      simp only [listLe, if_pos rfl] at hab hbc ⊢
      exact listLe_trans hab hbc
    · subst hxy
      simp only [listLe, if_pos rfl, if_neg hyz, decide_eq_true_eq] at hab hbc ⊢
      simp [listLe, hyz, hbc]
    · subst hyz
      simp only [listLe, if_neg hxy, decide_eq_true_eq] at hab
      simp [listLe, hxy, hab]
    · simp only [listLe, if_neg hxy, if_neg hyz, decide_eq_true_eq] at hab hbc
      have hxz : x < z := lt_trans hab hbc
      simp [listLe, ne_of_lt hxz, hxz]

theorem listLe_antisymm : ∀ {a b : List Char},
    listLe a b = true → listLe b a = true → a = b
  | [], [], _, _ => rfl
  | [], _ :: _, _, hba => by simp [listLe] at hba
  | _ :: _, [], hab, _ => by simp [listLe] at hab
  | x :: xs, y :: ys, hab, hba => by
    by_cases hxy : x = y
    · subst hxy
      simp only [listLe, if_pos rfl] at hab hba
      exact congrArg (x :: ·) (listLe_antisymm hab hba)
    · simp only [listLe, if_neg hxy, if_neg (Ne.symm hxy), decide_eq_true_eq] at hab hba
      exact absurd hba (lt_asymm hab)

instance : IsTotal (List Char) (fun a b => listLe a b = true) := ⟨listLe_total⟩

instance : IsTrans (List Char) (fun a b => listLe a b = true) :=
  ⟨fun _ _ _ => listLe_trans⟩

/-! ### Properties of `dedupAdjacent` -/

theorem dedupAdjacent_sublist : ∀ l : List (List Char),
    List.Sublist (dedupAdjacent l) l
  | [] => .slnil
  | [x] => .refl [x]
  | x :: y :: rest => by
    unfold dedupAdjacent
    split
    · exact (dedupAdjacent_sublist (y :: rest)).cons x
    · exact (dedupAdjacent_sublist (y :: rest)).cons₂ x

theorem mem_dedupAdjacent : ∀ {l : List (List Char)} {t : List Char},
    t ∈ dedupAdjacent l ↔ t ∈ l
  | [], t => Iff.rfl
  | [x], t => Iff.rfl
  | x :: y :: rest, t => by
    unfold dedupAdjacent
    split
    · next hxy =>
      subst hxy
      rw [mem_dedupAdjacent]
      constructor
      · exact fun h => List.mem_cons_of_mem x h
      · intro h
        rcases List.mem_cons.mp h with h | h
        · exact h ▸ List.mem_cons_self x rest
        · exact h
    · next hxy =>
      rw [List.mem_cons, mem_dedupAdjacent]
      exact (List.mem_cons).symm

theorem dedupAdjacent_pairwise : ∀ {l : List (List Char)},
    l.Pairwise (fun a b => listLe a b = true) →
    (dedupAdjacent l).Pairwise (fun a b => listLe a b = true ∧ a ≠ b)
  | [], _ => .nil
  | [x], _ => List.pairwise_singleton _ x
  | x :: y :: rest, h => by
    rcases List.pairwise_cons.mp h with ⟨hx, htail⟩
    unfold dedupAdjacent
    split
    · next hxy => exact dedupAdjacent_pairwise htail
    · next hxy =>
      refine List.pairwise_cons.mpr ⟨?_, dedupAdjacent_pairwise htail⟩
      intro z hz
      have hzmem : z ∈ y :: rest := mem_dedupAdjacent.mp hz
      refine ⟨hx z hzmem, ?_⟩
      intro hxz
      rcases List.mem_cons.mp hzmem with hzy | hzrest
      · exact hxy (hxz.trans hzy)
      · have hyz : listLe y z = true :=
          (List.pairwise_cons.mp htail).1 z hzrest
        have hxy' : listLe x y = true := hx y (List.mem_cons_self y rest)
        have hyx : listLe y x = true := by rw [hxz]; exact hyz
        exact hxy (listLe_antisymm hxy' hyx)

/-! ### Properties of the merged token list -/

theorem mergeTokens_pairwise (allDeps : List Char) (included : List (List Char)) :
    (mergeTokens allDeps included).Pairwise (fun a b => listLe a b = true ∧ a ≠ b) :=
  dedupAdjacent_pairwise
    (List.sorted_insertionSort (fun a b => listLe a b = true) _)

theorem mem_mergeTokens {allDeps : List Char} {included : List (List Char)} {t : List Char} :
    t ∈ mergeTokens allDeps included ↔
      t ∈ (splitSep ',' allDeps).map trimChars ∨ t ∈ included := by
  unfold mergeTokens
  rw [mem_dedupAdjacent, List.mem_insertionSort, List.mem_append]

/-! ### Occurrence theory for `listFind?` and `containsSub` -/

theorem listFind?_eq_none_iff : ∀ {s pat : List Char},
    listFind? pat s = none ↔ ∀ j, ¬ pat <+: s.drop j
  | [], pat => by
    by_cases hp : pat = []
    · subst hp
      simp [listFind?]
    · simp only [listFind?, if_neg hp, true_iff]
      intro j h
      exact hp (List.prefix_nil.mp (by simpa using h))
  | c :: rest, pat => by
    by_cases hp : pat.isPrefixOf (c :: rest)
    · have hocc : pat <+: (c :: rest).drop 0 := by
        simpa using List.isPrefixOf_iff_prefix.mp hp
      simp only [listFind?, if_pos hp]
      constructor
      · intro h
        exact Option.noConfusion h
      · intro h
        exact absurd hocc (h 0)
    · simp only [listFind?, if_neg hp, Option.map_eq_none', listFind?_eq_none_iff]
      constructor
      · intro h j
        cases j with
        | zero =>
          simpa using fun hc => hp (List.isPrefixOf_iff_prefix.mpr hc)
        | succ j => exact h j
      · exact fun h j => h (j + 1)

theorem listFind?_some_occurs : ∀ {s pat : List Char} {i : Nat},
    listFind? pat s = some i → pat <+: s.drop i
  | [], pat, i => by
    intro h
    by_cases hp : pat = []
    · rw [listFind?, if_pos hp] at h
      cases h
      subst hp
      simp
    · rw [listFind?, if_neg hp] at h
      cases h
  | c :: rest, pat, i => by
    by_cases hp : pat.isPrefixOf (c :: rest)
    · simp only [listFind?, if_pos hp, Option.some.injEq]
      rintro rfl
      simpa using List.isPrefixOf_iff_prefix.mp hp
    · simp only [listFind?, if_neg hp, Option.map_eq_some']
      rintro ⟨i', hfind, rfl⟩
      simpa using listFind?_some_occurs hfind

theorem containsSub_eq_false_iff {s pat : List Char} :
    containsSub s pat = false ↔ ∀ j, ¬ pat <+: s.drop j := by
  unfold containsSub
  cases hf : listFind? pat s with
  | none => simpa using listFind?_eq_none_iff.mp hf
  | some i =>
    simp only [Option.isSome_some, Bool.true_eq_false, false_iff, not_forall]
    exact ⟨i, not_not_intro (listFind?_some_occurs hf)⟩

theorem containsSub_eq_true_of {s pat : List Char} (j : Nat) (h : pat <+: s.drop j) :
    containsSub s pat = true := by
  cases hc : containsSub s pat with
  | false => exact absurd h (containsSub_eq_false_iff.mp hc j)
  | true => rfl

theorem containsSub_false_of_not_mem {s pat : List Char} {c : Char}
    (hc : c ∈ pat) (hs : c ∉ s) : containsSub s pat = false := by
  rw [containsSub_eq_false_iff]
  intro j h
  exact hs (List.drop_subset j s (h.subset hc))

theorem occurs_drop_split {x y pat : List Char} {j : Nat} (hj : j < x.length)
    (h : pat <+: (x ++ y).drop j) :
    pat <+: x.drop j ∨
      (x.drop j = pat.take (x.length - j) ∧ pat.drop (x.length - j) <+: y ∧
        x.length - j < pat.length) := by
  have hdrop : (x ++ y).drop j = x.drop j ++ y := by
    rw [List.drop_append_eq_append_drop, Nat.sub_eq_zero_of_le (le_of_lt hj), List.drop_zero]
  rw [hdrop] at h
  have hlq : (x.drop j).length = x.length - j := List.length_drop j x
  by_cases hle : pat.length ≤ (x.drop j).length
  · left
    have heq : pat = (x.drop j ++ y).take pat.length := List.prefix_iff_eq_take.mp h
    rw [List.take_append_eq_append_take, Nat.sub_eq_zero_of_le (by omega),
      List.take_zero, List.append_nil] at heq
    rw [heq]
    exact ⟨(x.drop j).drop pat.length, List.take_append_drop _ _⟩
  · right
    have hlt : (x.drop j).length < pat.length := by omega
    have heq : pat = (x.drop j ++ y).take pat.length := List.prefix_iff_eq_take.mp h
    rw [List.take_append_eq_append_take, List.take_of_length_le (by omega)] at heq
    constructor
    · rw [heq, ← hlq, List.take_left]
    constructor
    · rw [heq, ← hlq, List.drop_left]
      exact ⟨y.drop (pat.length - (x.drop j).length), List.take_append_drop _ _⟩
    · omega

theorem pre_head? {l r : List Char} (h : l <+: r) (hne : l ≠ []) :
    l.head? = r.head? := by
  cases l with
  | nil => exact absurd rfl hne
  | cons a t =>
    cases r with
    | nil => simpa using List.prefix_nil.mp h
    | cons b t2 =>
      rcases (List.cons_prefix_cons.mp h) with ⟨rfl, -⟩
      rfl

theorem no_occ_head {x y pat : List Char} {c : Char}
    (hx : containsSub x pat = false) (hh : y.head? = some c) (hc : c ∉ pat.drop 1) :
    ∀ j, j < x.length → ¬ pat <+: (x ++ y).drop j := by
  intro j hj hocc
  rcases occurs_drop_split hj hocc with hp | ⟨hq, hpre, hlt⟩
  · exact absurd (containsSub_eq_true_of j hp) (by simp [hx])
  · set m := x.length - j with hm
    have hm0 : 0 < m := by omega
    have hdropne : pat.drop m ≠ [] := by
      intro hnil
      have := List.length_drop m pat
      rw [hnil] at this
      simp at this
      omega
    have hhead : (pat.drop m).head? = some c := by
      rw [pre_head? hpre hdropne, hh]
    have hcmem : c ∈ pat.drop m := List.mem_of_mem_head? hhead
    have hsub : pat.drop m = (pat.drop 1).drop (m - 1) := by
      rw [List.drop_drop]
      congr 1
      omega
    rw [hsub] at hcmem
    exact hc (List.drop_subset _ _ hcmem)

theorem no_occ_take {x y pat : List Char}
    (hx : containsSub x pat = false)
    (hstr : ∀ m, m < pat.length → 0 < m → x.drop (x.length - m) ≠ pat.take m) :
    ∀ j, j < x.length → ¬ pat <+: (x ++ y).drop j := by
  intro j hj hocc
  rcases occurs_drop_split hj hocc with hp | ⟨hq, hpre, hlt⟩
  · exact absurd (containsSub_eq_true_of j hp) (by simp [hx])
  · have hj' : x.length - (x.length - j) = j := Nat.sub_sub_self (le_of_lt hj)
    exact hstr (x.length - j) hlt (by omega) (by rw [hj']; exact hq)

theorem containsSub_append_head {x y pat : List Char} {c : Char}
    (hx : containsSub x pat = false) (hy : containsSub y pat = false)
    (hh : y.head? = some c) (hc : c ∉ pat.drop 1) :
    containsSub (x ++ y) pat = false := by
  rw [containsSub_eq_false_iff]
  intro j hocc
  by_cases hj : j < x.length
  · exact no_occ_head hx hh hc j hj hocc
  · rw [List.drop_append_eq_append_drop, List.drop_eq_nil_of_le (by omega),
      List.nil_append] at hocc
    exact containsSub_eq_false_iff.mp hy _ hocc

theorem containsSub_append_take {x y pat : List Char}
    (hx : containsSub x pat = false) (hy : containsSub y pat = false)
    (hstr : ∀ m, m < pat.length → 0 < m → x.drop (x.length - m) ≠ pat.take m) :
    containsSub (x ++ y) pat = false := by
  rw [containsSub_eq_false_iff]
  intro j hocc
  by_cases hj : j < x.length
  · exact no_occ_take hx hstr j hj hocc
  · rw [List.drop_append_eq_append_drop, List.drop_eq_nil_of_le (by omega),
      List.nil_append] at hocc
    exact containsSub_eq_false_iff.mp hy _ hocc

theorem listFind?_append_of_no_occ : ∀ {x : List Char} {rest pat : List Char} {k : Nat},
    (∀ j, j < x.length → ¬ pat <+: (x ++ rest).drop j) →
    listFind? pat rest = some k →
    listFind? pat (x ++ rest) = some (x.length + k)
  | [], rest, pat, k, _, hk => by simpa using hk
  | c :: x', rest, pat, k, h, hk => by
    have hnp : ¬ pat.isPrefixOf (c :: (x' ++ rest)) := by
      intro hp
      exact h 0 (by simp) (by simpa using List.isPrefixOf_iff_prefix.mp hp)
    have ih := @listFind?_append_of_no_occ x' rest pat k
      (fun j hj hocc => h (j + 1) (by simpa using Nat.succ_lt_succ hj) (by simpa using hocc)) hk
    simp only [List.cons_append, listFind?, List.append_eq, if_neg hnp, ih,
      Option.map_some', List.length_cons]
    congr 1
    omega

theorem listFind?_of_pre {s pat : List Char} (h : pat <+: s) :
    listFind? pat s = some 0 := by
  cases s with
  | nil =>
    have : pat = [] := List.prefix_nil.mp h
    subst this
    rfl
  | cons c rest =>
    unfold listFind?
    rw [if_pos (List.isPrefixOf_iff_prefix.mpr h)]

theorem listFind?_boundary {x rest pat : List Char}
    (h : ∀ j, j < x.length → ¬ pat <+: (x ++ rest).drop j) (hpre : pat <+: rest) :
    listFind? pat (x ++ rest) = some x.length := by
  have := listFind?_append_of_no_occ h (listFind?_of_pre hpre)
  simpa using this

theorem insertAt_append (x r ins : List Char) :
    insertAt (x ++ r) x.length ins = x ++ ins ++ r := by
  unfold insertAt
  rw [List.take_left, List.drop_left]

theorem insertAt_middle (x r ins : List Char) :
    insertAt (x ++ r) x.length ins = x ++ (ins ++ r) := by
  rw [insertAt_append, List.append_assoc]

theorem drop_append_left {x : List Char} (y : List Char) {n : Nat} (hn : n ≤ x.length) :
    (x ++ y).drop n = x.drop n ++ y := by
  rw [List.drop_append_eq_append_drop, Nat.sub_eq_zero_of_le hn, List.drop_zero]

/-! ### Properties of `splitSep` -/

theorem splitSep_no_sep {sep : Char} : ∀ {l : List Char}, sep ∉ l → splitSep sep l = [l]
  | [], _ => rfl
  | c :: rest, h => by
    have hc : ¬ c = sep := fun hcs => h (hcs ▸ List.mem_cons_self c rest)
    have ih : splitSep sep rest = [rest] :=
      splitSep_no_sep (fun hm => h (List.mem_cons_of_mem c hm))
    simp only [splitSep, if_neg hc, ih]

theorem splitSep_sep_cons {sep : Char} : ∀ {l : List Char} (r : List Char), sep ∉ l →
    splitSep sep (l ++ sep :: r) = l :: splitSep sep r
  | [], r, _ => by
    simp [splitSep]
  | c :: l', r, h => by
    have hc : ¬ c = sep := fun hcs => h (hcs ▸ List.mem_cons_self c l')
    have ih : splitSep sep (l' ++ sep :: r) = l' :: splitSep sep r :=
      splitSep_sep_cons r (fun hm => h (List.mem_cons_of_mem c hm))
    rw [List.cons_append]
    simp only [splitSep, if_neg hc, ih]

theorem splitSep_coordinate {g a v : List Char}
    (hg : ':' ∉ g) (ha : ':' ∉ a) (hv : ':' ∉ v) :
    splitSep ':' (g ++ ':' :: (a ++ ':' :: v)) = [g, a, v] := by
  rw [splitSep_sep_cons _ hg, splitSep_sep_cons _ ha, splitSep_no_sep hv]

/-! ### Step and loop lemmas for the synchronizer -/

theorem syncStep_skip {pom0 plugin : List Char} (st : List Char × Nat)
    (h : containsSub pom0 plugin = true) :
    syncStep pom0 st plugin = .ok st := by
  unfold syncStep
  rw [h]
  simp

theorem syncStep_invalid {pom0 plugin : List Char} (st : List Char × Nat)
    (h : containsSub pom0 plugin = false)
    (h3 : (splitSep ':' plugin).length ≠ 3) :
    syncStep pom0 st plugin = .error (.invalidPlugin plugin) := by
  unfold syncStep
  rw [h]
  simp only [Bool.false_eq_true, if_false]
  rcases hsp : splitSep ':' plugin with _ | ⟨p1, _ | ⟨p2, _ | ⟨p3, _ | ⟨p4, t⟩⟩⟩⟩
  · rfl
  · rfl
  · rfl
  · exact absurd (by rw [hsp]; rfl) h3
  · rfl

theorem syncStep_insert {pom0 plugin g a v pom1 : List Char} {i : Nat}
    (st : List Char × Nat)
    (h : containsSub pom0 plugin = false)
    (hsp : splitSep ':' plugin = [g, a, v])
    (hens : ensureSections st.1 = .ok pom1)
    (hfind : listFind? pluginsCloseTag pom1 = some i) :
    syncStep pom0 st plugin = .ok (insertAt pom1 i (pluginXmlFor g a v), st.2 + 1) := by
  simp only [syncStep, h, Bool.false_eq_true, if_false, hsp, hens, hfind]

theorem ensureSections_insertBuild {pom : List Char} {i : Nat}
    (hnb : containsSub pom buildOpenTag = false)
    (hf : listFind? projectCloseTag pom = some i) :
    ensureSections pom = .ok (insertAt pom i buildSectionText) := by
  simp only [ensureSections, hnb, Bool.not_false, if_true, hf]

theorem ensureSections_noop {pom : List Char}
    (hb : containsSub pom buildOpenTag = true)
    (hp : containsSub pom pluginsOpenTag = true) :
    ensureSections pom = .ok pom := by
  simp only [ensureSections, hb, hp, Bool.not_true, Bool.false_eq_true, if_false]

theorem syncStep_noProject {pom0 plugin g a v : List Char} (st : List Char × Nat)
    (h : containsSub pom0 plugin = false)
    (hsp : splitSep ':' plugin = [g, a, v])
    (hnb : containsSub st.1 buildOpenTag = false)
    (hnp : listFind? projectCloseTag st.1 = none) :
    syncStep pom0 st plugin = .error .noProjectTag := by
  have hens : ensureSections st.1 = .error .noProjectTag := by
    simp only [ensureSections, hnb, Bool.not_false, if_true, hnp]
  simp only [syncStep, h, Bool.false_eq_true, if_false, hsp, hens]

theorem syncStep_ok_writes {pom0 plugin : List Char} {st st2 : List Char × Nat}
    (hc : containsSub pom0 plugin = false)
    (h : syncStep pom0 st plugin = .ok st2) : st2.2 = st.2 + 1 := by
  unfold syncStep at h
  rw [hc] at h
  simp only [Bool.false_eq_true, if_false] at h
  split at h
  · split at h
    · exact absurd h (by simp)
    · split at h
      · exact absurd h (by simp)
      · cases h
        rfl
  · exact absurd h (by simp)

theorem syncLoop_append_ok {pom0 : List Char} :
    ∀ {ps : List (List Char)} {st st1 : List Char × Nat} (qs : List (List Char)),
    syncLoop pom0 st ps = (st1, none) →
    syncLoop pom0 st (ps ++ qs) = syncLoop pom0 st1 qs
  | [], st, st1, qs, h => by
    injection h with h1 h2
    subst h1
    rfl
  | p :: rest, st, st1, qs, h => by
    unfold syncLoop at h
    cases hstep : syncStep pom0 st p with
    | error e =>
      rw [hstep] at h
      injection h with h1 h2
      exact Option.noConfusion h2
    | ok st' =>
      rw [hstep] at h
      have ih := syncLoop_append_ok qs h
      rw [List.cons_append]
      simp only [syncLoop, hstep]
      exact ih

theorem syncLoop_skip_all {pom0 : List Char} :
    ∀ {ps : List (List Char)} (st : List Char × Nat),
    (∀ p ∈ ps, containsSub pom0 p = true) → syncLoop pom0 st ps = (st, none)
  | [], st, _ => rfl
  | p :: rest, st, h => by
    unfold syncLoop
    rw [syncStep_skip st (h p (List.mem_cons_self p rest))]
    exact syncLoop_skip_all st (fun q hq => h q (List.mem_cons_of_mem p hq))

theorem syncLoop_writes {pom0 : List Char} :
    ∀ {ps : List (List Char)} {st st1 : List Char × Nat},
    syncLoop pom0 st ps = (st1, none) →
    st1.2 = st.2 + (ps.filter (fun p => ! containsSub pom0 p)).length
  | [], st, st1, h => by
    injection h with h1 h2
    subst h1
    simp
  | p :: rest, st, st1, h => by
    unfold syncLoop at h
    cases hc : containsSub pom0 p with
    | true =>
      rw [syncStep_skip st hc] at h
      have ih := syncLoop_writes h
      rw [ih]
      simp [List.filter_cons, hc]
    | false =>
      cases hstep : syncStep pom0 st p with
      | error e =>
        rw [hstep] at h
        injection h with h1 h2
        exact Option.noConfusion h2
      | ok st' =>
        rw [hstep] at h
        have ih := syncLoop_writes h
        have hw := syncStep_ok_writes hc hstep
        rw [ih, hw]
        simp only [List.filter_cons, hc, Bool.not_false, if_true, List.length_cons]
        omega

/-! ### Decompositions of the inserted text blocks -/

/-- The part of `buildSectionText` before its `</plugins>` marker. -/
def bsPre : List Char := "\n    <build>\n        <plugins>\n        ".data

/-- The part of `buildSectionText` after its `</plugins>` marker. -/
def bsPost : List Char := "\n    </build>\n".data

theorem buildSectionText_decomp :
    buildSectionText = bsPre ++ (pluginsCloseTag ++ bsPost) := by decide

def pxA : List Char := "\n            <plugin>\n                <groupId>".data

def pxB : List Char := "</groupId>\n                <artifactId>".data

def pxC : List Char := "</artifactId>\n                <version>".data

def pxD : List Char := "</version>\n            </plugin>".data

theorem pluginXmlFor_decomp (g a v : List Char) :
    pluginXmlFor g a v = pxA ++ (g ++ (pxB ++ (a ++ (pxC ++ (v ++ pxD))))) := by
  simp [pluginXmlFor, pxA, pxB, pxC, pxD, List.append_assoc]

theorem head?_append_of_ne_nil {x y : List Char} {c : Char} (h : x.head? = some c) :
    (x ++ y).head? = some c := by
  cases x with
  | nil => cases h
  | cons a t =>
    cases h
    rfl

theorem pluginXmlFor_head? (g a v : List Char) :
    (pluginXmlFor g a v).head? = some '\n' := by
  rw [pluginXmlFor_decomp]
  exact head?_append_of_ne_nil rfl

/-- The declaration block built from components free of `<` never contains
the `</plugins>` marker. -/
theorem pluginXml_no_pluginsClose {g a v : List Char}
    (hg : '<' ∉ g) (ha : '<' ∉ a) (hv : '<' ∉ v) :
    containsSub (pluginXmlFor g a v) pluginsCloseTag = false := by
  rw [pluginXmlFor_decomp]
  have s6 : containsSub (v ++ pxD) pluginsCloseTag = false :=
    containsSub_append_head (containsSub_false_of_not_mem (by decide) hv)
      (by decide) rfl (by decide)
  have s5 : containsSub (pxC ++ (v ++ pxD)) pluginsCloseTag = false :=
    containsSub_append_take (by decide) s6 (by decide)
  have s4 : containsSub (a ++ (pxC ++ (v ++ pxD))) pluginsCloseTag = false :=
    containsSub_append_head (containsSub_false_of_not_mem (by decide) ha)
      s5 (head?_append_of_ne_nil rfl) (by decide)
  have s3 : containsSub (pxB ++ (a ++ (pxC ++ (v ++ pxD)))) pluginsCloseTag = false :=
    containsSub_append_take (by decide) s4 (by decide)
  have s2 : containsSub (g ++ (pxB ++ (a ++ (pxC ++ (v ++ pxD))))) pluginsCloseTag = false :=
    containsSub_append_head (containsSub_false_of_not_mem (by decide) hg)
      s3 (head?_append_of_ne_nil rfl) (by decide)
  exact containsSub_append_take (by decide) s2 (by decide)

/-- Finding a marker placed right after a clean prefix: the first occurrence
is at the boundary, provided the marker's head character occurs nowhere else
in the marker. -/
theorem listFind?_marker {pat : List Char} (X Y : List Char) {c : Char}
    (hhead : pat.head? = some c) (hc : c ∉ pat.drop 1)
    (hX : containsSub X pat = false) :
    listFind? pat (X ++ (pat ++ Y)) = some X.length :=
  listFind?_boundary (no_occ_head hX (head?_append_of_ne_nil hhead) hc)
    (List.prefix_append _ _)

/-! ### Claim C1 -/

/-- C1 is false as stated: `sync` is not idempotent.  On the document
`<project>\n</project>` with the single valid coordinate `g:a:v`, the first
run inserts a declaration block holding the three components in separate
tags, so the raw string `g:a:v` still does not occur in the result; the
second run therefore inserts the block again and the document changes. -/
theorem sync_plugins_not_idempotent_cex :
    (sync_plugins ((sync_plugins "<project>\n</project>".data ["g:a:v".data]).1.1)
        ["g:a:v".data]).1.1 ≠
      (sync_plugins "<project>\n</project>".data ["g:a:v".data]).1.1 := by
  decide

/-- C1 (amended): `sync` is a no-op — same text, no write, no error — exactly
when every required coordinate already occurs verbatim in the document text,
which is what the presence check guarantees; idempotence does not hold in
general because an inserted declaration block does not contain the raw
colon-delimited coordinate. -/
theorem sync_plugins_noop_of_all_contained (doc : List Char) (plugins : List (List Char))
    (h : ∀ p ∈ plugins, containsSub doc p = true) :
    sync_plugins doc plugins = ((doc, 0), none) :=
  syncLoop_skip_all (doc, 0) h

theorem sync_plugins_noop_witness :
    (∀ p ∈ ["g:a:v".data], containsSub "<project>g:a:v</project>".data p = true) ∧
      sync_plugins "<project>g:a:v</project>".data ["g:a:v".data] =
        (("<project>g:a:v</project>".data, 0), none) :=
  ⟨by decide, sync_plugins_noop_of_all_contained _ _ (by decide)⟩

/-! ### Claim C2 -/

/-- C2 is false as stated: the merge keeps empty tokens (produced here by the
trailing comma in the primary string) and does not trim the additional
tokens, so the joined output can contain an empty token and the token set is
not the union of the trimmed non-empty tokens of the two sources. -/
theorem merge_tokens_claim_cex :
    mergeTokens "web,".data [" x".data] = ["".data, " x".data, "web".data] ∧
      joinTokens (mergeTokens "web,".data [" x".data]) = ", x,web".data := by
  constructor <;> decide

/-- C2 (amended): the merged token list is strictly sorted in byte
(codepoint) order, has no duplicates, and its token set is the union of the
trimmed comma-split tokens of the primary string and the raw (untrimmed)
additional tokens — empty tokens included on both sides. -/
theorem merge_tokens_sorted_nodup_union (allDeps : List Char) (included : List (List Char)) :
    (mergeTokens allDeps included).Pairwise (fun a b => listLe a b = true ∧ a ≠ b) ∧
      (mergeTokens allDeps included).Nodup ∧
      ∀ t, t ∈ mergeTokens allDeps included ↔
        t ∈ (splitSep ',' allDeps).map trimChars ∨ t ∈ included :=
  ⟨mergeTokens_pairwise allDeps included,
    List.Pairwise.imp (fun h => h.2) (mergeTokens_pairwise allDeps included),
    fun _ => mem_mergeTokens⟩

/-! ### Claim C3 -/

/-- C3 is false as stated: with no additional list the primary string is
returned untouched, while an empty additional list triggers the
split-trim-sort-dedup-join pipeline; on the primary string `b,a` the two
results differ (`b,a` versus `a,b`). -/
theorem merge_none_ne_some_nil_cex :
    init_project_merge "b,a".data none ≠ init_project_merge "b,a".data (some []) := by
  decide

/-- C3 (amended): when the additional list is absent the merge performs no
normalization at all and returns the primary string verbatim; absence of
additional tokens is therefore not equivalent to an empty additional list. -/
theorem merge_none_eq_primary (allDeps : List Char) :
    init_project_merge allDeps none = allDeps := rfl

/-! ### Claim C4 -/

/-- C4 is false as stated: a successful run over two absent plugins performs
two writes to the backing store (one per inserted plugin, from inside the
loop), not a single batched write after all plugins are processed. -/
theorem sync_plugins_two_writes_cex :
    (sync_plugins "<project>\n</project>".data ["a:b:c".data, "d:e:f".data]).1.2 = 2 ∧
      (sync_plugins "<project>\n</project>".data ["a:b:c".data, "d:e:f".data]).2 = none := by
  constructor <;> decide

/-- C4 (amended): on a successful pass the number of writes equals the number
of required plugins whose raw coordinate is absent from the initially read
document — one write per inserted plugin, zero for skipped ones. -/
theorem sync_plugins_write_count (doc : List Char) (plugins : List (List Char))
    (st1 : List Char × Nat) (h : sync_plugins doc plugins = (st1, none)) :
    st1.2 = (plugins.filter (fun p => ! containsSub doc p)).length := by
  have hw := @syncLoop_writes doc plugins (doc, 0) st1 h
  simpa using hw

theorem sync_plugins_write_count_witness :
    (sync_plugins "<project>\n</project>".data ["x:y:z".data]).1.2 =
      ((["x:y:z".data]).filter
        (fun p => ! containsSub "<project>\n</project>".data p)).length :=
  sync_plugins_write_count _ _ _ (by decide)

/-! ### Claim C6 -/

/-- C6 is false as stated: validation only counts the colon-separated parts
and never checks them for emptiness, so the coordinate `a::c` — three parts
with an empty artifact component, hence invalid in the claim's sense — is
accepted: sync succeeds with no error and modifies the document. -/
theorem sync_plugins_empty_part_accepted_cex :
    (sync_plugins "<project></project>".data ["a::c".data]).2 = none ∧
      (sync_plugins "<project></project>".data ["a::c".data]).1.1 ≠
        "<project></project>".data := by
  constructor <;> decide

/-- C6 (amended): if the first plugin coordinate does not split on `:` into
exactly three parts (emptiness of the parts is not checked) and is not
already contained in the document text, sync fails with the
invalid-plugin-format InputError, performs no write, and leaves the document
byte-for-byte unchanged. -/
theorem sync_plugins_invalid_first_error (doc plugin : List Char)
    (rest : List (List Char))
    (habs : containsSub doc plugin = false)
    (hbad : (splitSep ':' plugin).length ≠ 3) :
    sync_plugins doc (plugin :: rest) = ((doc, 0), some (.invalidPlugin plugin)) := by
  unfold sync_plugins syncLoop
  rw [syncStep_invalid _ habs hbad]

theorem sync_plugins_invalid_first_error_witness :
    containsSub "<project></project>\n".data "org.example:badplugin".data = false ∧
      (splitSep ':' "org.example:badplugin".data).length ≠ 3 ∧
      sync_plugins "<project></project>\n".data ["org.example:badplugin".data] =
        (("<project></project>\n".data, 0),
          some (.invalidPlugin "org.example:badplugin".data)) :=
  ⟨by decide, by decide,
    sync_plugins_invalid_first_error _ _ _ (by decide) (by decide)⟩

/-! ### Claim C5 -/

/-- C5 is false as stated: on a document that contains a root closing marker
and no build-configuration section but carries a stray `</plugins>` marker
before the root closing marker, the freshly inserted build section is not
where the plugin lands — the declaration block is inserted at the first
`</plugins>` occurrence, at the very top of the document, outside the build
section, whose own plugins section stays empty.  The run still succeeds. -/
theorem sync_plugins_misplaced_insert_cex :
    sync_plugins "</plugins></project>".data ["g:a:v".data] =
      ((pluginXmlFor "g".data "a".data "v".data ++
          ("</plugins>".data ++ (buildSectionText ++ "</project>".data)), 1), none) ∧
      listFind? "<groupId>g</groupId>".data
          (pluginXmlFor "g".data "a".data "v".data ++
            ("</plugins>".data ++ (buildSectionText ++ "</project>".data))) = some 38 ∧
      listFind? buildOpenTag
          (pluginXmlFor "g".data "a".data "v".data ++
            ("</plugins>".data ++ (buildSectionText ++ "</project>".data))) = some 175 := by
  refine ⟨by decide, by decide, by decide⟩

/-- C5 (amended): for a document of the form `p ++ "</project>" ++ s` with no
build-configuration marker, where the prefix `p` contains neither a root
closing marker nor a plugin-list closing marker, syncing one absent
three-part coordinate inserts exactly one build section, one plugins
section and one declaration block, correctly nested immediately before the
root closing marker, with a single write and no error: the result is
exactly `p` followed by the opened build and plugins sections, the
declaration block, the two closing markers and the root closing marker. -/
theorem sync_plugins_fresh_insert
    (p s g a v plugin : List Char)
    (hplugin : plugin = g ++ ':' :: (a ++ ':' :: v))
    (hg : ':' ∉ g) (ha : ':' ∉ a) (hv : ':' ∉ v)
    (habsent : containsSub (p ++ (projectCloseTag ++ s)) plugin = false)
    (hnobuild : containsSub (p ++ (projectCloseTag ++ s)) buildOpenTag = false)
    (hp1 : containsSub p projectCloseTag = false)
    (hp2 : containsSub p pluginsCloseTag = false) :
    sync_plugins (p ++ (projectCloseTag ++ s)) [plugin] =
      ((p ++ (bsPre ++ (pluginXmlFor g a v ++
          (pluginsCloseTag ++ (bsPost ++ (projectCloseTag ++ s))))), 1), none) := by
  have hsp : splitSep ':' plugin = [g, a, v] := by
    rw [hplugin]
    exact splitSep_coordinate hg ha hv
  have hfindProj : listFind? projectCloseTag (p ++ (projectCloseTag ++ s)) = some p.length :=
    listFind?_marker p s rfl (by decide) hp1
  have hens : ensureSections (p ++ (projectCloseTag ++ s)) =
      .ok (insertAt (p ++ (projectCloseTag ++ s)) p.length buildSectionText) :=
    ensureSections_insertBuild hnobuild hfindProj
  have hins1 : insertAt (p ++ (projectCloseTag ++ s)) p.length buildSectionText
      = (p ++ bsPre) ++ (pluginsCloseTag ++ (bsPost ++ (projectCloseTag ++ s))) := by
    rw [insertAt_middle, buildSectionText_decomp]
    simp [List.append_assoc]
  have hXclean : containsSub (p ++ bsPre) pluginsCloseTag = false :=
    containsSub_append_head hp2 (by decide) rfl (by decide)
  have hfind2 : listFind? pluginsCloseTag
      ((p ++ bsPre) ++ (pluginsCloseTag ++ (bsPost ++ (projectCloseTag ++ s))))
      = some (p ++ bsPre).length :=
    listFind?_marker (p ++ bsPre) _ rfl (by decide) hXclean
  have hens' : ensureSections (p ++ (projectCloseTag ++ s))
      = .ok ((p ++ bsPre) ++ (pluginsCloseTag ++ (bsPost ++ (projectCloseTag ++ s)))) := by
    rw [hens, hins1]
  have hstep : syncStep (p ++ (projectCloseTag ++ s)) (p ++ (projectCloseTag ++ s), 0) plugin
      = .ok (insertAt ((p ++ bsPre) ++ (pluginsCloseTag ++ (bsPost ++ (projectCloseTag ++ s))))
          (p ++ bsPre).length (pluginXmlFor g a v), 1) :=
    syncStep_insert (p ++ (projectCloseTag ++ s), 0) habsent hsp hens' hfind2
  unfold sync_plugins syncLoop
  rw [hstep, insertAt_middle]
  simp [syncLoop, List.append_assoc]

theorem sync_plugins_fresh_insert_witness :
    sync_plugins ("<project>".data ++ (projectCloseTag ++ "".data))
        ["org.apache.maven.plugins:maven-shade-plugin:3.4.1".data] =
      (("<project>".data ++ (bsPre ++
          (pluginXmlFor "org.apache.maven.plugins".data "maven-shade-plugin".data "3.4.1".data ++
            (pluginsCloseTag ++ (bsPost ++ (projectCloseTag ++ "".data))))), 1), none) :=
  sync_plugins_fresh_insert "<project>".data "".data
    "org.apache.maven.plugins".data "maven-shade-plugin".data "3.4.1".data
    "org.apache.maven.plugins:maven-shade-plugin:3.4.1".data
    (by decide) (by decide) (by decide) (by decide)
    (by decide) (by decide) (by decide) (by decide)

/-! ### Claim C7 -/

/-- C7: when a later coordinate fails validation (absent from the document
and not splitting into exactly three parts), the run aborts with the
invalid-plugin InputError and the final state is exactly the state reached
by the successful prefix — every plugin inserted and written earlier in the
same run is kept, nothing is rolled back. -/
theorem sync_plugins_partial_state_kept (doc : List Char) (ps : List (List Char))
    (bad : List Char) (more : List (List Char)) (st1 : List Char × Nat)
    (hok : syncLoop doc (doc, 0) ps = (st1, none))
    (habs : containsSub doc bad = false)
    (hbad : (splitSep ':' bad).length ≠ 3) :
    sync_plugins doc (ps ++ bad :: more) = (st1, some (.invalidPlugin bad)) := by
  unfold sync_plugins
  rw [syncLoop_append_ok (bad :: more) hok]
  unfold syncLoop
  rw [syncStep_invalid _ habs hbad]

theorem sync_plugins_partial_state_kept_witness :
    sync_plugins "<project>\n</project>".data (["g:a:v".data] ++ "x:y".data :: []) =
      ((sync_plugins "<project>\n</project>".data ["g:a:v".data]).1,
        some (.invalidPlugin "x:y".data)) :=
  sync_plugins_partial_state_kept _ _ _ _ _ (by decide) (by decide) (by decide)

/-! ### Claim C8 -/

/-- C8: when an absent, well-formed coordinate must be inserted but the
document has neither a `<build>` marker nor a `</project>` marker, sync
fails with the missing-`</project>` DocumentStructureError and nothing is
inserted for that plugin: the document text and write count are unchanged. -/
theorem sync_plugins_missing_project_error (doc plugin g a v : List Char)
    (rest : List (List Char))
    (habs : containsSub doc plugin = false)
    (hsp : splitSep ':' plugin = [g, a, v])
    (hnb : containsSub doc buildOpenTag = false)
    (hnp : listFind? projectCloseTag doc = none) :
    sync_plugins doc (plugin :: rest) = ((doc, 0), some .noProjectTag) := by
  unfold sync_plugins syncLoop
  rw [syncStep_noProject _ habs hsp hnb hnp]

theorem sync_plugins_missing_project_error_witness :
    containsSub "<project>".data "g:a:v".data = false ∧
      splitSep ':' "g:a:v".data = ["g".data, "a".data, "v".data] ∧
      containsSub "<project>".data buildOpenTag = false ∧
      listFind? projectCloseTag "<project>".data = none ∧
      sync_plugins "<project>".data ["g:a:v".data] =
        (("<project>".data, 0), some .noProjectTag) :=
  ⟨by decide, by decide, by decide, by decide,
    sync_plugins_missing_project_error "<project>".data "g:a:v".data
      "g".data "a".data "v".data []
      (by decide) (by decide) (by decide) (by decide)⟩

/-! ### Claim C9 -/

/-- C9: the presence check of every iteration consults the document text as
read once at the start of the run (`pom0`), not the text updated by earlier
insertions; hence a required list holding the same absent valid coordinate
twice inserts two identical declaration blocks, back to back, with two
writes.  (The document well-formedness hypotheses match those of the
fresh-insert theorem; the components must also be free of `<` so that the
first inserted block cannot fake a section marker.) -/
theorem sync_plugins_duplicate_coordinate_inserts_twice
    (p s g a v plugin : List Char)
    (hplugin : plugin = g ++ ':' :: (a ++ ':' :: v))
    (hg : ':' ∉ g) (ha : ':' ∉ a) (hv : ':' ∉ v)
    (hg2 : '<' ∉ g) (ha2 : '<' ∉ a) (hv2 : '<' ∉ v)
    (habsent : containsSub (p ++ (projectCloseTag ++ s)) plugin = false)
    (hnobuild : containsSub (p ++ (projectCloseTag ++ s)) buildOpenTag = false)
    (hp1 : containsSub p projectCloseTag = false)
    (hp2 : containsSub p pluginsCloseTag = false) :
    sync_plugins (p ++ (projectCloseTag ++ s)) [plugin, plugin] =
      ((p ++ (bsPre ++ (pluginXmlFor g a v ++ (pluginXmlFor g a v ++
          (pluginsCloseTag ++ (bsPost ++ (projectCloseTag ++ s)))))), 2), none) := by
  have hsp : splitSep ':' plugin = [g, a, v] := by
    rw [hplugin]
    exact splitSep_coordinate hg ha hv
  have hfindProj : listFind? projectCloseTag (p ++ (projectCloseTag ++ s)) = some p.length :=
    listFind?_marker p s rfl (by decide) hp1
  have hens : ensureSections (p ++ (projectCloseTag ++ s)) =
      .ok (insertAt (p ++ (projectCloseTag ++ s)) p.length buildSectionText) :=
    ensureSections_insertBuild hnobuild hfindProj
  have hins1 : insertAt (p ++ (projectCloseTag ++ s)) p.length buildSectionText
      = (p ++ bsPre) ++ (pluginsCloseTag ++ (bsPost ++ (projectCloseTag ++ s))) := by
    rw [insertAt_middle, buildSectionText_decomp]
    simp [List.append_assoc]
  have hXclean : containsSub (p ++ bsPre) pluginsCloseTag = false :=
    containsSub_append_head hp2 (by decide) rfl (by decide)
  have hfind2 : listFind? pluginsCloseTag
      ((p ++ bsPre) ++ (pluginsCloseTag ++ (bsPost ++ (projectCloseTag ++ s))))
      = some (p ++ bsPre).length :=
    listFind?_marker (p ++ bsPre) _ rfl (by decide) hXclean
  have hens' : ensureSections (p ++ (projectCloseTag ++ s))
      = .ok ((p ++ bsPre) ++ (pluginsCloseTag ++ (bsPost ++ (projectCloseTag ++ s)))) := by
    rw [hens, hins1]
  have hstep1 : syncStep (p ++ (projectCloseTag ++ s)) (p ++ (projectCloseTag ++ s), 0) plugin
      = .ok (p ++ (bsPre ++ (pluginXmlFor g a v ++
          (pluginsCloseTag ++ (bsPost ++ (projectCloseTag ++ s))))), 1) := by
    rw [syncStep_insert (p ++ (projectCloseTag ++ s), 0) habsent hsp hens' hfind2,
      insertAt_middle]
    simp [List.append_assoc]
  have hb : containsSub (p ++ (bsPre ++ (pluginXmlFor g a v ++
      (pluginsCloseTag ++ (bsPost ++ (projectCloseTag ++ s)))))) buildOpenTag = true := by
    apply containsSub_eq_true_of (p.length + 5)
    rw [List.drop_append 5]
    rw [drop_append_left _ (by decide : 5 ≤ bsPre.length)]
    exact (by decide : buildOpenTag <+: bsPre.drop 5).trans (List.prefix_append _ _)
  have hpl : containsSub (p ++ (bsPre ++ (pluginXmlFor g a v ++
      (pluginsCloseTag ++ (bsPost ++ (projectCloseTag ++ s)))))) pluginsOpenTag = true := by
    apply containsSub_eq_true_of (p.length + 21)
    rw [List.drop_append 21]
    rw [drop_append_left _ (by decide : 21 ≤ bsPre.length)]
    exact (by decide : pluginsOpenTag <+: bsPre.drop 21).trans (List.prefix_append _ _)
  have hens2 : ensureSections (p ++ (bsPre ++ (pluginXmlFor g a v ++
      (pluginsCloseTag ++ (bsPost ++ (projectCloseTag ++ s)))))) =
      .ok (p ++ (bsPre ++ (pluginXmlFor g a v ++
        (pluginsCloseTag ++ (bsPost ++ (projectCloseTag ++ s)))))) :=
    ensureSections_noop hb hpl
  have hX2 : containsSub (p ++ (bsPre ++ pluginXmlFor g a v)) pluginsCloseTag = false := by
    have hy : containsSub (bsPre ++ pluginXmlFor g a v) pluginsCloseTag = false :=
      containsSub_append_head (by decide) (pluginXml_no_pluginsClose hg2 ha2 hv2)
        (pluginXmlFor_head? g a v) (by decide)
    exact containsSub_append_head hp2 hy (head?_append_of_ne_nil rfl) (by decide)
  have hassoc : p ++ (bsPre ++ (pluginXmlFor g a v ++
      (pluginsCloseTag ++ (bsPost ++ (projectCloseTag ++ s)))))
      = (p ++ (bsPre ++ pluginXmlFor g a v)) ++
        (pluginsCloseTag ++ (bsPost ++ (projectCloseTag ++ s))) := by
    simp [List.append_assoc]
  have hfind3 : listFind? pluginsCloseTag (p ++ (bsPre ++ (pluginXmlFor g a v ++
      (pluginsCloseTag ++ (bsPost ++ (projectCloseTag ++ s)))))) =
      some (p ++ (bsPre ++ pluginXmlFor g a v)).length := by
    rw [hassoc]
    exact listFind?_marker (p ++ (bsPre ++ pluginXmlFor g a v)) _ rfl (by decide) hX2
  have hstep2 : syncStep (p ++ (projectCloseTag ++ s))
      (p ++ (bsPre ++ (pluginXmlFor g a v ++
        (pluginsCloseTag ++ (bsPost ++ (projectCloseTag ++ s))))), 1) plugin
      = .ok (p ++ (bsPre ++ (pluginXmlFor g a v ++ (pluginXmlFor g a v ++
          (pluginsCloseTag ++ (bsPost ++ (projectCloseTag ++ s)))))), 2) := by
    rw [syncStep_insert _ habsent hsp hens2 hfind3, hassoc, insertAt_middle]
    simp [List.append_assoc]
  unfold sync_plugins
  simp only [syncLoop, hstep1, hstep2]

theorem sync_plugins_duplicate_coordinate_witness :
    sync_plugins ("<project>".data ++ (projectCloseTag ++ "".data))
        ["g:a:v".data, "g:a:v".data] =
      (("<project>".data ++ (bsPre ++ (pluginXmlFor "g".data "a".data "v".data ++
          (pluginXmlFor "g".data "a".data "v".data ++
            (pluginsCloseTag ++ (bsPost ++ (projectCloseTag ++ "".data)))))), 2), none) :=
  sync_plugins_duplicate_coordinate_inserts_twice "<project>".data "".data
    "g".data "a".data "v".data "g:a:v".data
    (by decide) (by decide) (by decide) (by decide)
    (by decide) (by decide) (by decide) (by decide)
    (by decide) (by decide) (by decide)

/-! ### Claim C10 -/

/-- C10: a malformed coordinate (not exactly three colon-separated parts)
whose raw string already occurs verbatim in the document is skipped by the
presence check before validation ever runs: it contributes nothing to the
run, and a run consisting only of it succeeds without touching the
document. -/
theorem sync_plugins_contained_malformed_skipped (doc plugin : List Char)
    (rest : List (List Char))
    (hcont : containsSub doc plugin = true)
    (hbad : (splitSep ':' plugin).length ≠ 3) :
    sync_plugins doc (plugin :: rest) = sync_plugins doc rest ∧
      sync_plugins doc [plugin] = ((doc, 0), none) := by
  constructor
  · simp only [sync_plugins, syncLoop, syncStep_skip _ hcont]
  · simp only [sync_plugins, syncLoop, syncStep_skip _ hcont]

theorem sync_plugins_contained_malformed_skipped_witness :
    containsSub "<project>org.example:badplugin</project>".data
        "org.example:badplugin".data = true ∧
      (splitSep ':' "org.example:badplugin".data).length ≠ 3 ∧
      sync_plugins "<project>org.example:badplugin</project>".data
          ["org.example:badplugin".data] =
        (("<project>org.example:badplugin</project>".data, 0), none) :=
  ⟨by decide, by decide,
    (sync_plugins_contained_malformed_skipped _ _ [] (by decide) (by decide)).2⟩

